import Mathlib

/-
Verification of the in-memory TTL cache implemented in internal/cache.go of
popkovvvv/golang_in_memory_cache.

Shallow embedding conventions:
- the Go map map[string]Item is modelled as an association list with unique
  keys (the representation invariant NodupKeys below);
- instants (time.Now().UnixNano()) and durations (time.Duration) are int64
  values in Go and are modelled as Int; each operation takes the instant at
  which it runs as an explicit argument;
- the payload interface value is a type parameter;
- Get returns the pair (value, found), with value = none modelling Go nil.
-/

namespace Internal

/-- Mirrors `type Item struct` of cache.go: fields value, createdAt,
expiration (an int64 UnixNano instant, 0 meaning never expires). -/
structure Item (α : Type) where
  value : α
  createdAt : Int
  expiration : Int
  deriving DecidableEq, Repr

abbrev Key := String

/-- The Go map map[string]Item, modelled as an association list. -/
abbrev Table (α : Type) := List (Key × Item α)

/-- Reading `item, found := c.cache[key]` on the association-list model. -/
def lookupKey {α : Type} (t : Table α) (k : Key) : Option (Item α) :=
  match t with
  | [] => none
  | (k2, i) :: rest => if k2 = k then some i else lookupKey rest k

/-- Writing `c.cache[key] = item`: replace the entry when the key is
present, otherwise add it. -/
def insertKey {α : Type} (t : Table α) (k : Key) (i : Item α) : Table α :=
  match t with
  | [] => [(k, i)]
  | (k2, i2) :: rest =>
    if k2 = k then (k, i) :: rest else (k2, i2) :: insertKey rest k i

/-- The built-in `delete(c.cache, key)`: remove the key from the map. -/
def removeKey {α : Type} (t : Table α) (k : Key) : Table α :=
  match t with
  | [] => []
  | (k2, i) :: rest =>
    if k2 = k then removeKey rest k else (k2, i) :: removeKey rest k

/-- Representation invariant of the Go map: every key occurs at most once. -/
def NodupKeys {α : Type} (t : Table α) : Prop := (t.map Prod.fst).Nodup

instance {α : Type} (t : Table α) : Decidable (NodupKeys t) :=
  inferInstanceAs (Decidable ((t.map Prod.fst).Nodup))

/-- Get of cache.go (lines 30-50): absent keys give (nil, false); a present
item with expiration greater than 0 whose expiration lies strictly before
now gives (nil, false); every other present item gives (value, true). -/
def Get {α : Type} (t : Table α) (k : Key) (now : Int) : Option α × Bool :=
  match lookupKey t k with
  | none => (none, false)
  | some item =>
    if item.expiration > 0 then
      if now > item.expiration then (none, false)
      else (some item.value, true)
    else (some item.value, true)

/-- Set of cache.go (lines 52-76): a zero duration is replaced by the
configured default; a positive resulting duration yields expiration
now + duration, otherwise expiration keeps its zero value; the item is then
stored with createdAt = now. -/
def Set {α : Type} (t : Table α) (k : Key) (v : α)
    (duration defaultExpiration now : Int) : Table α :=
  let d := if duration = 0 then defaultExpiration else duration
  let exp := if d > 0 then now + d else 0
  insertKey t k (Item.mk v now exp)

/-- The single error kind of the engine. -/
inductive CacheError : Type where
  | notFound : CacheError
  deriving DecidableEq, Repr

/-- Delete of cache.go (lines 78-89): an absent key gives a NotFound error
and leaves the table untouched; a present key is removed and nil is
returned. The pair is (returned error, table after the call). -/
def Delete {α : Type} (t : Table α) (k : Key) : Option CacheError × Table α :=
  match lookupKey t k with
  | none => (some CacheError.notFound, t)
  | some _ => (none, removeKey t k)

/-- expiredKeys of cache.go (lines 113-126): collect every key whose item
satisfies now > expiration and expiration > 0. -/
def expiredKeys {α : Type} (t : Table α) (now : Int) : List Key :=
  match t with
  | [] => []
  | (k, i) :: rest =>
    if now > i.expiration ∧ i.expiration > 0 then k :: expiredKeys rest now
    else expiredKeys rest now

/-- clearItems of cache.go (lines 129-138): delete every key of the given
list from the table, in order. -/
def clearItems {α : Type} (t : Table α) (keys : List Key) : Table α :=
  match keys with
  | [] => t
  | k :: rest => clearItems (removeKey t k) rest

/-- One pass of the GC loop body of cache.go (lines 106-108), after the nil
check: if expiredKeys is non-empty, clearItems removes them, otherwise the
table is left alone. -/
def sweepOnce {α : Type} (t : Table α) (now : Int) : Table α :=
  if (expiredKeys t now).length ≠ 0 then clearItems t (expiredKeys t now)
  else t

/-- Flush of cache.go (lines 140-144): the map is replaced by a freshly
made empty one. -/
def Flush {α : Type} (_t : Table α) : Table α := []

/-- The engine state: cache is an Option to model that a Go map reference
may be nil (none); gcStarted records whether StartGC launched the sweeper
goroutine. -/
structure InMemoryCache (α : Type) where
  cache : Option (Table α)
  defaultExpiration : Int
  cleanupInterval : Int
  gcStarted : Bool
  deriving Repr

/-- NewInMemoryCache of cache.go (lines 146-159): allocate an empty map,
record the two durations, and call StartGC exactly when CleanupInterval is
greater than 0. -/
def NewInMemoryCache (α : Type) (DefaultExpiration CleanupInterval : Int) :
    InMemoryCache α :=
  InMemoryCache.mk (some []) DefaultExpiration CleanupInterval
    (decide (0 < CleanupInterval))

/-- Reading a key through a possibly nil map: a lookup on a nil Go map
finds nothing. -/
def stateLookup {α : Type} (c : InMemoryCache α) (k : Key) :
    Option (Item α) :=
  match c.cache with
  | none => none
  | some t => lookupKey t k

/-- One engine operation, tagged with the instant at which it runs. -/
inductive Op (α : Type) where
  | get (k : Key) (now : Int)
  | set (k : Key) (v : α) (duration : Int) (now : Int)
  | del (k : Key)
  | flush
  | sweep (now : Int)

/-- The state transition of each operation. Get performs no write at all.
Set on a nil map would panic in Go; the branch is unreachable from
construction (reachable_cache_isSome) and is modelled as a stuck state.
Delete on a nil map finds nothing, so it only returns an error. The GC
loop returns without touching anything when the map is nil. -/
def applyOp {α : Type} (c : InMemoryCache α) (op : Op α) : InMemoryCache α :=
  match op with
  | Op.get _ _ => c
  | Op.set k v duration now =>
    match c.cache with
    | none => c
    | some t =>
      InMemoryCache.mk (some (Set t k v duration c.defaultExpiration now))
        c.defaultExpiration c.cleanupInterval c.gcStarted
  | Op.del k =>
    match c.cache with
    | none => c
    | some t =>
      InMemoryCache.mk (some (Delete t k).2)
        c.defaultExpiration c.cleanupInterval c.gcStarted
  | Op.flush =>
    InMemoryCache.mk (some [])
      c.defaultExpiration c.cleanupInterval c.gcStarted
  | Op.sweep now =>
    match c.cache with
    | none => c
    | some t =>
      InMemoryCache.mk (some (sweepOnce t now))
        c.defaultExpiration c.cleanupInterval c.gcStarted

/-- Whether an operation is a sweeper cycle. -/
def Op.isSweep {α : Type} : Op α → Bool
  | Op.sweep _ => true
  | _ => false

/-- Whether an operation is a Flush. -/
def Op.isFlush {α : Type} : Op α → Bool
  | Op.flush => true
  | _ => false

/-- Whether an operation writes (Set) or removes (Delete) the given key. -/
def Op.writesKey {α : Type} (k : Key) : Op α → Bool
  | Op.set k2 _ _ _ => k2 == k
  | Op.del k2 => k2 == k
  | _ => false

/-- Looking up the key just inserted finds the new item. -/
theorem lookupKey_insertKey_self {α : Type} (t : Table α) (k : Key) (i : Item α) :
    lookupKey (insertKey t k i) k = some i := by
  induction t with
  | nil => simp [insertKey, lookupKey]
  | cons p rest ih =>
    obtain ⟨k2, i2⟩ := p
    by_cases h : k2 = k
    · simp [insertKey, lookupKey, h]
    · simp [insertKey, lookupKey, h, ih]

/-- Inserting one key leaves lookups of any other key alone. -/
theorem lookupKey_insertKey_ne {α : Type} (t : Table α) (k k2 : Key) (i : Item α)
    (h : k2 ≠ k) : lookupKey (insertKey t k i) k2 = lookupKey t k2 := by
  induction t with
  | nil => simp [insertKey, lookupKey, Ne.symm h]
  | cons p rest ih =>
    obtain ⟨k3, i3⟩ := p
    by_cases h3 : k3 = k
    · subst h3
      simp [insertKey, lookupKey, Ne.symm h]
    · simp only [insertKey, if_neg h3]
      by_cases h2 : k3 = k2
      · simp [lookupKey, h2]
      · simp [lookupKey, h2, ih]

/-- Looking up a removed key finds nothing. -/
theorem lookupKey_removeKey_self {α : Type} (t : Table α) (k : Key) :
    lookupKey (removeKey t k) k = none := by
  induction t with
  | nil => simp [removeKey, lookupKey]
  | cons p rest ih =>
    obtain ⟨k2, i⟩ := p
    by_cases h : k2 = k
    · simp [removeKey, h, ih]
    · simp [removeKey, lookupKey, h, ih]

/-- Removing one key leaves lookups of any other key alone. -/
theorem lookupKey_removeKey_ne {α : Type} (t : Table α) (k k2 : Key)
    (h : k2 ≠ k) : lookupKey (removeKey t k) k2 = lookupKey t k2 := by
  induction t with
  | nil => simp [removeKey]
  | cons p rest ih =>
    obtain ⟨k3, i⟩ := p
    by_cases h3 : k3 = k
    · subst h3
      simp [removeKey, lookupKey, Ne.symm h, ih]
    · by_cases h2 : k3 = k2
      · simp [removeKey, lookupKey, h3, h2, h]
      · simp [removeKey, lookupKey, h3, h2, ih]

/-- A key is looked up to none exactly when it is not a key of the table. -/
theorem lookupKey_eq_none_iff {α : Type} (t : Table α) (k : Key) :
    lookupKey t k = none ↔ k ∉ t.map Prod.fst := by
  induction t with
  | nil => simp [lookupKey]
  | cons p rest ih =>
    obtain ⟨k2, i⟩ := p
    by_cases h : k2 = k
    · subst h
      simp [lookupKey]
    · simp [lookupKey, h, Ne.symm h, ih]

/-- Every key collected by expiredKeys is a key of the table. -/
theorem mem_keys_of_mem_expiredKeys {α : Type} (t : Table α) (now : Int)
    (k : Key) (h : k ∈ expiredKeys t now) : k ∈ t.map Prod.fst := by
  induction t with
  | nil => simp [expiredKeys] at h
  | cons p rest ih =>
    obtain ⟨k2, i⟩ := p
    simp only [expiredKeys] at h
    by_cases hc : now > i.expiration ∧ i.expiration > 0
    · rw [if_pos hc] at h
      rcases List.mem_cons.mp h with h1 | h1
      · simp [h1]
      · simp [ih h1]
    · rw [if_neg hc] at h
      simp [ih h]

/-- On a table with unique keys, a key is collected by expiredKeys exactly
when the item stored under it has a positive expiration strictly before
now. -/
theorem mem_expiredKeys_iff {α : Type} (t : Table α) (now : Int) (k : Key)
    (hnd : NodupKeys t) :
    k ∈ expiredKeys t now ↔
      ∃ i, lookupKey t k = some i ∧ now > i.expiration ∧ i.expiration > 0 := by
  induction t with
  | nil =>
    simp [expiredKeys, lookupKey]
  | cons p rest ih =>
    obtain ⟨k2, i2⟩ := p
    have hnd1 : k2 ∉ rest.map Prod.fst ∧ (rest.map Prod.fst).Nodup := by
      have : (k2 :: rest.map Prod.fst).Nodup := by
        simpa [NodupKeys] using hnd
      exact List.nodup_cons.mp this
    have hnd2 : NodupKeys rest := hnd1.2
    by_cases h : k2 = k
    · subst h
      have hl : lookupKey ((k2, i2) :: rest) k2 = some i2 := by
        simp [lookupKey]
      rw [hl]
      by_cases hc : now > i2.expiration ∧ i2.expiration > 0
      · have hE : expiredKeys ((k2, i2) :: rest) now =
            k2 :: expiredKeys rest now := by
          simp only [expiredKeys, if_pos hc]
        rw [hE]
        simp only [List.mem_cons, true_or, true_iff]
        exact ⟨i2, rfl, hc⟩
      · have hE : expiredKeys ((k2, i2) :: rest) now =
            expiredKeys rest now := by
          simp only [expiredKeys, if_neg hc]
        rw [hE]
        constructor
        · intro hmem
          exact absurd (mem_keys_of_mem_expiredKeys rest now k2 hmem) hnd1.1
        · rintro ⟨i, hi, h1, h2⟩
          cases hi
          exact absurd ⟨h1, h2⟩ hc
    · have hl : lookupKey ((k2, i2) :: rest) k = lookupKey rest k := by
        simp [lookupKey, h]
      rw [hl]
      by_cases hc : now > i2.expiration ∧ i2.expiration > 0
      · have hE : expiredKeys ((k2, i2) :: rest) now =
            k2 :: expiredKeys rest now := by
          simp only [expiredKeys, if_pos hc]
        rw [hE]
        constructor
        · intro hmem
          rcases List.mem_cons.mp hmem with h1 | h1
          · exact absurd h1.symm h
          · exact (ih hnd2).mp h1
        · intro h1
          exact List.mem_cons.mpr (Or.inr ((ih hnd2).mpr h1))
      · have hE : expiredKeys ((k2, i2) :: rest) now =
            expiredKeys rest now := by
          simp only [expiredKeys, if_neg hc]
        rw [hE]
        exact ih hnd2

/-- clearItems removes exactly the keys of its list. -/
theorem lookupKey_clearItems {α : Type} (keys : List Key) (t : Table α)
    (k : Key) :
    lookupKey (clearItems t keys) k =
      if k ∈ keys then none else lookupKey t k := by
  induction keys generalizing t with
  | nil => simp [clearItems]
  | cons k0 rest ih =>
    rw [clearItems, ih]
    by_cases h : k = k0
    · subst h
      by_cases hm : k ∈ rest
      · simp [hm]
      · simp [hm, lookupKey_removeKey_self]
    · by_cases hm : k ∈ rest
      · simp [hm]
      · simp [hm, h, lookupKey_removeKey_ne t k0 k h]

/-- One sweep cycle removes exactly the keys collected by expiredKeys. -/
theorem lookupKey_sweepOnce {α : Type} (t : Table α) (now : Int) (k : Key) :
    lookupKey (sweepOnce t now) k =
      if k ∈ expiredKeys t now then none else lookupKey t k := by
  rw [sweepOnce]
  by_cases h : (expiredKeys t now).length ≠ 0
  · rw [if_pos h, lookupKey_clearItems]
  · rw [if_neg h]
    have hmt : expiredKeys t now = [] := by
      rcases List.length_eq_zero.mp (not_ne_iff.mp h) with h2
      exact h2
    simp [hmt]

/-- Delete leaves lookups of any other key alone. -/
theorem lookupKey_Delete_ne {α : Type} (t : Table α) (k k2 : Key)
    (h : k2 ≠ k) : lookupKey (Delete t k).2 k2 = lookupKey t k2 := by
  rw [Delete]
  cases hl : lookupKey t k with
  | none => rfl
  | some i => exact lookupKey_removeKey_ne t k k2 h

/-- Set leaves lookups of any other key alone. -/
theorem lookupKey_Set_ne {α : Type} (t : Table α) (k k2 : Key) (v : α)
    (duration defaultExpiration now : Int) (h : k2 ≠ k) :
    lookupKey (Set t k v duration defaultExpiration now) k2 = lookupKey t k2 := by
  rw [Set]
  exact lookupKey_insertKey_ne t k k2 _ h

/-- Table with one item whose stored expiration is the nonzero instant -1. -/
def tC2 : Table Nat := [("a", Item.mk 0 0 (-1))]

/-- Claim C2 counterexample: the key "a" is present with the nonzero
expiration -1 and the time 5 is strictly after it, so the claim says Get
returns not-found; the code only treats an expiration greater than 0 as an
expiry instant and returns the value with found = true. -/
theorem C2_counterexample :
    lookupKey tC2 "a" = some (Item.mk 0 0 (-1)) ∧
    (-1 : Int) ≠ 0 ∧ ((-1 : Int) < 5) ∧
    Get tC2 "a" 5 = (some 0, true) := by decide

/-- Claim C2, amended: Get(key) returns not-found when the key is absent;
returns not-found when the key is present with a positive expiration and
the current time is strictly after it; and returns the stored value with
found = true when the key is present and either has a nonpositive
expiration (never expires) or the current time is not strictly after its
expiration. -/
theorem Get_spec {α : Type} (t : Table α) (k : Key) (now : Int) :
    (lookupKey t k = none → Get t k now = (none, false)) ∧
    (∀ i, lookupKey t k = some i → 0 < i.expiration → i.expiration < now →
      Get t k now = (none, false)) ∧
    (∀ i, lookupKey t k = some i → (i.expiration ≤ 0 ∨ now ≤ i.expiration) →
      Get t k now = (some i.value, true)) := by
  refine ⟨?_, ?_, ?_⟩
  · intro h
    simp [Get, h]
  · intro i h h1 h2
    simp [Get, h, h1, h2]
  · intro i h h1
    rcases h1 with h1 | h1
    · have h2 : ¬ 0 < i.expiration := by omega
      simp [Get, h, h2]
    · have h2 : ¬ i.expiration < now := by omega
      by_cases h3 : 0 < i.expiration
      · simp [Get, h, h3, h2]
      · simp [Get, h, h3]

/-- Witness for Get_spec at concrete inputs: an absent key, an expired
item at time 20, and the same item still alive at time 10. -/
theorem Get_spec_witness :
    Get ([] : Table Nat) "a" 0 = (none, false) ∧
    Get [("b", Item.mk (3 : Nat) 0 10)] "b" 20 = (none, false) ∧
    Get [("b", Item.mk (3 : Nat) 0 10)] "b" 10 = (some 3, true) := by
  refine ⟨(Get_spec ([] : Table Nat) "a" 0).1 rfl,
    (Get_spec [("b", Item.mk (3 : Nat) 0 10)] "b" 20).2.1 (Item.mk 3 0 10)
      (by decide) (by decide) (by decide),
    (Get_spec [("b", Item.mk (3 : Nat) 0 10)] "b" 10).2.2 (Item.mk 3 0 10)
      (by decide) (Or.inr (by decide))⟩

/-- Claim C3: Set stores createdAt = now and computes the expiration by
cases on the requested duration: a positive duration gives now + duration;
a zero duration falls back to the configured default, giving
now + default when the default is positive and the never-expires sentinel
0 otherwise; a negative duration is not replaced by the default and gives
the sentinel 0. -/
theorem Set_expiration_spec {α : Type} (t : Table α) (k : Key) (v : α)
    (duration defaultExpiration now : Int) :
    (0 < duration →
      lookupKey (Set t k v duration defaultExpiration now) k =
        some (Item.mk v now (now + duration))) ∧
    (duration = 0 → 0 < defaultExpiration →
      lookupKey (Set t k v duration defaultExpiration now) k =
        some (Item.mk v now (now + defaultExpiration))) ∧
    (duration = 0 → defaultExpiration ≤ 0 →
      lookupKey (Set t k v duration defaultExpiration now) k =
        some (Item.mk v now 0)) ∧
    (duration < 0 →
      lookupKey (Set t k v duration defaultExpiration now) k =
        some (Item.mk v now 0)) := by
  refine ⟨?_, ?_, ?_, ?_⟩
  · intro h
    have hne : duration ≠ 0 := by omega
    simp [Set, hne, h, lookupKey_insertKey_self]
  · intro h0 hd
    subst h0
    simp [Set, hd, lookupKey_insertKey_self]
  · intro h0 hd
    subst h0
    have h2 : ¬ 0 < defaultExpiration := by omega
    simp [Set, h2, lookupKey_insertKey_self]
  · intro h
    have hne : duration ≠ 0 := by omega
    have h2 : ¬ 0 < duration := by omega
    simp [Set, hne, h2, lookupKey_insertKey_self]

/-- Witness for Set_expiration_spec: a zero duration with default 7 at
time 100 stores expiration 107, a negative duration stores the
never-expires sentinel 0. -/
theorem Set_expiration_spec_witness :
    lookupKey (Set ([] : Table Nat) "a" 5 0 7 100) "a" =
      some (Item.mk 5 100 107) ∧
    lookupKey (Set ([] : Table Nat) "b" 6 (-3) 7 100) "b" =
      some (Item.mk 6 100 0) := by
  refine ⟨?_, ?_⟩
  · have h := (Set_expiration_spec ([] : Table Nat) "a" 5 0 7 100).2.1
      rfl (by decide)
    simpa using h
  · have h := (Set_expiration_spec ([] : Table Nat) "b" 6 (-3) 7 100).2.2.2
      (by decide)
    simpa using h

/-- Claim C4: Delete returns the NotFound error exactly when the key is
absent, in which case the table is unchanged; on a present key it succeeds,
removes that entry, leaves every other key alone, and a later Get of the
key returns not-found. -/
theorem Delete_spec {α : Type} (t : Table α) (k : Key) :
    ((Delete t k).1 = some CacheError.notFound ↔ lookupKey t k = none) ∧
    (lookupKey t k = none → (Delete t k).2 = t) ∧
    (lookupKey t k ≠ none →
      (Delete t k).1 = none ∧
      lookupKey (Delete t k).2 k = none ∧
      (∀ now, Get (Delete t k).2 k now = (none, false)) ∧
      (∀ k2, k2 ≠ k → lookupKey (Delete t k).2 k2 = lookupKey t k2)) := by
  cases hl : lookupKey t k with
  | none =>
    refine ⟨by simp [Delete, hl], fun _ => by simp [Delete, hl],
      fun h => absurd rfl h⟩
  | some i =>
    refine ⟨by simp [Delete, hl], fun h => by simp [hl] at h, fun _ => ?_⟩
    refine ⟨by simp [Delete, hl], by simp [Delete, hl, lookupKey_removeKey_self],
      fun now => ?_, fun k2 h2 => lookupKey_Delete_ne t k k2 h2⟩
    simp [Get, Delete, hl, lookupKey_removeKey_self]

/-- Witness for Delete_spec: deleting the absent key "b" leaves the
one-entry table unchanged; deleting the present key "a" makes a lookup of
"a" find nothing. -/
theorem Delete_spec_witness :
    (Delete [("a", Item.mk (1 : Nat) 0 0)] "b").2 =
      [("a", Item.mk (1 : Nat) 0 0)] ∧
    lookupKey (Delete [("a", Item.mk (1 : Nat) 0 0)] "a").2 "a" = none := by
  refine ⟨(Delete_spec [("a", Item.mk (1 : Nat) 0 0)] "b").2.1 (by decide),
    ((Delete_spec [("a", Item.mk (1 : Nat) 0 0)] "a").2.2 (by decide)).2.1⟩

/-- Claim C5: after Flush the table is empty, so every key, in particular
every previously present one, is looked up to none and Get reports
not-found. -/
theorem Flush_spec {α : Type} (t : Table α) (k : Key) (now : Int) :
    lookupKey (Flush t) k = none ∧ Get (Flush t) k now = (none, false) :=
  ⟨rfl, rfl⟩

/-- Table with one item whose stored expiration is the nonzero instant -1,
used against claim C6. -/
def tC6 : Table Nat := [("b", Item.mk 2 0 (-1))]

/-- Claim C6 counterexample: the key "b" carries the nonzero expiration -1,
strictly in the past at scan time 5, so the claim says one sweep cycle
removes it; the scan only collects expirations greater than 0, so the
cycle leaves the table unchanged. -/
theorem C6_counterexample :
    lookupKey tC6 "b" = some (Item.mk 2 0 (-1)) ∧
    (-1 : Int) ≠ 0 ∧ ((-1 : Int) < 5) ∧
    expiredKeys tC6 5 = [] ∧
    sweepOnce tC6 5 = tC6 := by decide

/-- Claim C6, amended: on a table with unique keys, one sweep cycle run
without interleaved writes removes exactly the keys whose entry has a
positive expiration strictly in the past at scan time, leaves every other
entry unchanged, and is the identity when no key qualifies. -/
theorem sweepOnce_spec {α : Type} (t : Table α) (now : Int)
    (hnd : NodupKeys t) :
    (∀ k i, lookupKey t k = some i → 0 < i.expiration → i.expiration < now →
      lookupKey (sweepOnce t now) k = none) ∧
    (∀ k i, lookupKey t k = some i →
      ¬(0 < i.expiration ∧ i.expiration < now) →
      lookupKey (sweepOnce t now) k = some i) ∧
    (∀ k, lookupKey t k = none → lookupKey (sweepOnce t now) k = none) ∧
    (expiredKeys t now = [] → sweepOnce t now = t) := by
  refine ⟨?_, ?_, ?_, ?_⟩
  · intro k i h h1 h2
    rw [lookupKey_sweepOnce]
    have hm : k ∈ expiredKeys t now :=
      (mem_expiredKeys_iff t now k hnd).mpr ⟨i, h, h2, h1⟩
    rw [if_pos hm]
  · intro k i h hni
    rw [lookupKey_sweepOnce]
    have hm : k ∉ expiredKeys t now := by
      intro hmem
      rcases (mem_expiredKeys_iff t now k hnd).mp hmem with ⟨i2, h2, h3, h4⟩
      rw [h] at h2
      cases h2
      exact hni ⟨h4, h3⟩
    rw [if_neg hm, h]
  · intro k h
    rw [lookupKey_sweepOnce]
    have hm : k ∉ expiredKeys t now := by
      intro hmem
      exact absurd (mem_keys_of_mem_expiredKeys t now k hmem)
        ((lookupKey_eq_none_iff t k).mp h)
    rw [if_neg hm, h]
  · intro h
    rw [sweepOnce, h]
    simp

/-- Table with one expired and one live entry, used to witness
sweepOnce_spec. -/
def tC6w : Table Nat := [("a", Item.mk 1 0 5), ("b", Item.mk 2 0 20)]

/-- Witness for sweepOnce_spec: at time 10, the sweep removes "a"
(expired at 5) and keeps "b" (expires at 20) unchanged. -/
theorem sweepOnce_spec_witness :
    lookupKey (sweepOnce tC6w 10) "a" = none ∧
    lookupKey (sweepOnce tC6w 10) "b" = some (Item.mk 2 0 20) := by
  refine ⟨(sweepOnce_spec tC6w 10 (by decide)).1 "a" (Item.mk 1 0 5)
      (by decide) (by decide) (by decide),
    (sweepOnce_spec tC6w 10 (by decide)).2.1 "b" (Item.mk 2 0 20)
      (by decide) (by decide)⟩

/-- Table whose single entry expired at instant 5, used against claim C1. -/
def tC1 : Table Nat := [("a", Item.mk 1 0 5)]

/-- Claim C1, evaluated at the failing input: at time 10 the scan collects
"a" because its entry expired at 5; Set then rewrites "a" with duration 100
at time 10, storing a fresh entry expiring at 110; the eviction step
clearItems nevertheless deletes "a" although the entry currently stored
under it is not expired: it deletes blindly by key, without re-validating
expiration. -/
theorem C1_code_eval :
    expiredKeys tC1 10 = ["a"] ∧
    lookupKey (Set tC1 "a" 2 100 0 10) "a" = some (Item.mk 2 10 110) ∧
    (0 < (110 : Int) ∧ ¬ ((110 : Int) < 10)) ∧
    lookupKey (clearItems (Set tC1 "a" 2 100 0 10) ["a"]) "a" = none := by
  decide

/-- Claim C7: Get performs no mutation at all: at the state level the get
operation is the identity on the engine state, and a present-but-expired
item is reported not-found while remaining stored in the unchanged table. -/
theorem Get_frame {α : Type} (c : InMemoryCache α) (t : Table α) (k : Key)
    (now : Int) :
    applyOp c (Op.get k now) = c ∧
    (∀ i, lookupKey t k = some i → 0 < i.expiration → i.expiration < now →
      Get t k now = (none, false) ∧ lookupKey t k = some i) := by
  refine ⟨rfl, fun i h h1 h2 => ⟨?_, h⟩⟩
  simp [Get, h, h1, h2]

/-- Witness for Get_frame: a concrete engine state is untouched by a get,
and a concrete expired entry is reported not-found yet still stored. -/
theorem Get_frame_witness :
    applyOp (NewInMemoryCache Nat 0 0) (Op.get "a" 10) =
      NewInMemoryCache Nat 0 0 ∧
    (Get [("a", Item.mk (7 : Nat) 0 5)] "a" 10 = (none, false) ∧
      lookupKey [("a", Item.mk (7 : Nat) 0 5)] "a" = some (Item.mk 7 0 5)) :=
  ⟨(Get_frame (NewInMemoryCache Nat 0 0) [("a", Item.mk (7 : Nat) 0 5)]
      "a" 10).1,
    (Get_frame (NewInMemoryCache Nat 0 0) [("a", Item.mk (7 : Nat) 0 5)]
      "a" 10).2 (Item.mk 7 0 5) (by decide) (by decide) (by decide)⟩

/-- A single operation that is neither a sweep, nor a Flush, nor a Set or
Delete of the key k leaves the entry stored under k alone. -/
theorem stateLookup_applyOp_frame {α : Type} (c : InMemoryCache α)
    (op : Op α) (k : Key) (hs : Op.isSweep op = false)
    (hf : Op.isFlush op = false) (hw : Op.writesKey k op = false) :
    stateLookup (applyOp c op) k = stateLookup c k := by
  cases op with
  | get k2 now => rfl
  | set k2 v duration now =>
    have h2 : k2 ≠ k := by simpa [Op.writesKey] using hw
    cases hc : c.cache with
    | none => simp [applyOp, hc]
    | some t =>
      simp [applyOp, hc, stateLookup,
        lookupKey_Set_ne t k2 k v duration c.defaultExpiration now h2.symm]
  | del k2 =>
    have h2 : k2 ≠ k := by simpa [Op.writesKey] using hw
    cases hc : c.cache with
    | none => simp [applyOp, hc]
    | some t =>
      simp [applyOp, hc, stateLookup, lookupKey_Delete_ne t k2 k h2.symm]
  | flush => simp [Op.isFlush] at hf
  | sweep now => simp [Op.isSweep] at hs

/-- Claim C8: construction always succeeds and yields an empty table, the
sweeper goroutine is started exactly when the cleanup interval is greater
than 0, and a run containing no sweep cycle, no Flush and no Set or Delete
of a key k leaves the entry stored under k (in particular an expired one)
untouched. -/
theorem NewInMemoryCache_spec {α : Type} (d cI : Int) (s : InMemoryCache α)
    (ops : List (Op α)) (k : Key) :
    (NewInMemoryCache α d cI).cache = some [] ∧
    ((NewInMemoryCache α d cI).gcStarted = true ↔ 0 < cI) ∧
    ((∀ op ∈ ops, Op.isSweep op = false ∧ Op.isFlush op = false ∧
        Op.writesKey k op = false) →
      stateLookup (ops.foldl applyOp s) k = stateLookup s k) := by
  refine ⟨rfl, by simp [NewInMemoryCache], ?_⟩
  induction ops generalizing s with
  | nil => exact fun _ => rfl
  | cons op rest ih =>
    intro h
    have h1 := h op (List.mem_cons_self op rest)
    have h2 : ∀ o ∈ rest, Op.isSweep o = false ∧ Op.isFlush o = false ∧
        Op.writesKey k o = false :=
      fun o ho => h o (List.mem_cons_of_mem op ho)
    rw [List.foldl_cons, ih (applyOp s op) h2]
    exact stateLookup_applyOp_frame s op k h1.1 h1.2.1 h1.2.2

/-- Engine state with sweeping disabled and one expired entry, used to
witness NewInMemoryCache_spec. -/
def sC8 : InMemoryCache Nat :=
  InMemoryCache.mk (some [("a", Item.mk 4 0 5)]) 0 0 false

/-- Witness for NewInMemoryCache_spec: construction gives an empty table
and starts the sweeper for interval 3 but not 0; a sweep-free, flush-free
run not writing "a" keeps the expired entry of sC8. -/
theorem NewInMemoryCache_spec_witness :
    (NewInMemoryCache Nat 5 0).cache = some [] ∧
    ((NewInMemoryCache Nat 5 3).gcStarted = true ↔ (0 : Int) < 3) ∧
    stateLookup
      (List.foldl applyOp sC8 [Op.get "a" 1, Op.set "b" 9 1 2, Op.del "c"])
      "a" = stateLookup sC8 "a" :=
  ⟨(NewInMemoryCache_spec 5 0 sC8 [] "a").1,
    (NewInMemoryCache_spec 5 3 sC8 [] "a").2.1,
    (NewInMemoryCache_spec 5 0 sC8
      [Op.get "a" 1, Op.set "b" 9 1 2, Op.del "c"] "a").2.2 (by decide)⟩

/-- Claim C9: Set of key k and Delete of key k leave the whole item stored
under any distinct key k2 (value, createdAt and expiration) unchanged. -/
theorem Set_Delete_frame {α : Type} (t : Table α) (k k2 : Key) (v : α)
    (duration defaultExpiration now : Int) (h : k2 ≠ k) :
    lookupKey (Set t k v duration defaultExpiration now) k2 =
      lookupKey t k2 ∧
    lookupKey (Delete t k).2 k2 = lookupKey t k2 :=
  ⟨lookupKey_Set_ne t k k2 v duration defaultExpiration now h,
    lookupKey_Delete_ne t k k2 h⟩

/-- Witness for Set_Delete_frame: writing and deleting "a" keep the item
stored under "b". -/
theorem Set_Delete_frame_witness :
    lookupKey (Set [("b", Item.mk (2 : Nat) 0 9)] "a" 5 1 0 0) "b" =
      some (Item.mk 2 0 9) ∧
    lookupKey (Delete [("b", Item.mk (2 : Nat) 0 9)] "a").2 "b" =
      some (Item.mk 2 0 9) := by
  have h := Set_Delete_frame [("b", Item.mk (2 : Nat) 0 9)] "a" "b" 5 1 0 0
    (by decide)
  exact ⟨h.1.trans (by decide), h.2.trans (by decide)⟩

/-- Every single operation keeps the map reference non-nil once it is
non-nil. -/
theorem applyOp_cache_isSome {α : Type} (c : InMemoryCache α) (op : Op α)
    (h : c.cache.isSome = true) : (applyOp c op).cache.isSome = true := by
  cases op with
  | get k now => exact h
  | set k v duration now =>
    cases hc : c.cache with
    | none => rw [hc] at h; simp at h
    | some t => simp [applyOp, hc]
  | del k =>
    cases hc : c.cache with
    | none => rw [hc] at h; simp at h
    | some t => simp [applyOp, hc]
  | flush => simp [applyOp]
  | sweep now =>
    cases hc : c.cache with
    | none => rw [hc] at h; simp at h
    | some t => simp [applyOp, hc]

/-- Claim C10: every state reachable from construction by any sequence of
operations keeps a non-nil map: construction allocates it and Flush
installs a fresh empty map, so no operation ever observes nil and the GC
loop's nil-check exit branch is never taken. -/
theorem reachable_cache_isSome {α : Type} (d cI : Int) (ops : List (Op α)) :
    ((ops.foldl applyOp (NewInMemoryCache α d cI)).cache).isSome = true := by
  have hgen : ∀ (c : InMemoryCache α), c.cache.isSome = true →
      ((ops.foldl applyOp c).cache).isSome = true := by
    induction ops with
    | nil => exact fun _ h => h
    | cons op rest ih =>
      intro c h
      rw [List.foldl_cons]
      exact ih (applyOp c op) (applyOp_cache_isSome c op h)
  exact hgen (NewInMemoryCache α d cI) rfl

end Internal
